import Mathlib

/-!
# Verification of the my-cam-control capture-and-assemble pipeline

This development shallowly embeds the Python sources of the repository
(`CamHelper.py`, `common.py`, `FrameHelper.py`, `EzvizCam.py`, `main.py`)
as executable Lean definitions and proves, or refutes, the behavioural
claims of the specification against them.

External effects (ffmpeg invocations, the RTSP network, PIL image
decoding, the relational store) are modelled as explicit oracles:
each effectful call site is a field of an environment record whose
value is an `Except`/`Option`/`Bool` describing the outcome of that call;
Python exceptions are the `.error` branch.  The filesystem directories
that the code manipulates are modelled as association lists from file
name to content.
-/

namespace MyCam

/-! ## CamHelper.validate_frame -/

/-- Result of decoding a frame file with PIL: image dimensions and the mean
grayscale brightness (`ImageStat.Stat(img.convert('L')).mean[0]`, a value
in `[0, 255]`, modelled as a rational). -/
structure ImgData where
  width : Nat
  height : Nat
  brightness : ℚ
deriving DecidableEq

/-- A frame file as `validate_frame` observes it: whether `os.path.exists`
holds, the `os.path.getsize` result, and the decoded image (`none` means
`Image.open`/`ImageStat` raised, which the function's `except` turns into
a rejection). -/
structure FrameFile where
  onDisk : Bool
  size : Nat
  decoded : Option ImgData
deriving DecidableEq

/-- Embedding of `CamHelper.validate_frame` (CamHelper.py:155-185):
reject missing files, files with `size < 1000`, undecodable files,
images with `width < 100 or height < 100`, and images with
`brightness < 5 or brightness > 250`; accept everything else. -/
def validate_frame (f : FrameFile) : Bool :=
  if !f.onDisk then false
  else if f.size < 1000 then false
  else
    match f.decoded with
    | none => false
    | some img =>
      if img.width < 100 || img.height < 100 then false
      else if img.brightness < 5 || img.brightness > 250 then false
      else true

/-- The acceptance predicate exactly as claim C4 words it (strict
thresholds): file exists, decodes, size strictly above 1000 bytes, both
dimensions strictly above 100, brightness strictly between 5 and 250. -/
def validateSpecStrict (f : FrameFile) : Prop :=
  f.onDisk = true ∧ ∃ img, f.decoded = some img ∧
    1000 < f.size ∧ 100 < img.width ∧ 100 < img.height ∧
    5 < img.brightness ∧ img.brightness < 250

instance (f : FrameFile) : Decidable (validateSpecStrict f) := by
  unfold validateSpecStrict
  cases h : f.decoded with
  | none =>
    exact isFalse (by rintro ⟨-, img, himg, -⟩ ; simp [h] at himg)
  | some img =>
    refine decidable_of_iff
      (f.onDisk = true ∧ 1000 < f.size ∧ 100 < img.width ∧ 100 < img.height ∧
        5 < img.brightness ∧ img.brightness < 250) ?_
    constructor
    · rintro ⟨h1, h2⟩ ; exact ⟨h1, img, rfl, h2⟩
    · rintro ⟨h1, img2, himg2, h2⟩
      cases himg2
      exact ⟨h1, h2⟩

/-- A frame sitting exactly on all three lower/upper bounds:
1000 bytes, 100×100 pixels, mean brightness exactly 5. -/
def boundaryFrame : FrameFile :=
  { onDisk := true, size := 1000, decoded := some ⟨100, 100, 5⟩ }

/-! ## common.py constants and read_status -/

/-- `common.MAX_RETRIES` (common.py:36). -/
def MAX_RETRIES : Nat := 3

/-- The run-state control record `{"status": ..., "processing": ...}`. -/
structure StatusRec where
  status : String
  processing : Bool
deriving DecidableEq

/-- Ways reading the control file can fail: the file is missing, cannot
be opened/read, or holds malformed JSON.  All of them raise in Python and
are caught by the same `except` clause. -/
inductive ReadError
  | missingFile
  | unreadable
  | malformedJson
deriving DecidableEq

/-- Embedding of `common.read_status` (common.py:71-78): return the parsed
record on success, and the default `{"status": "stop", "processing": False}`
whenever opening/parsing raised. -/
def read_status (r : Except ReadError StatusRec) : StatusRec :=
  match r with
  | .ok s => s
  | .error _ => { status := "stop", processing := false }

/-- The branch the scheduler loop takes on a status record
(EzvizCam.py:290): the recording branch runs iff `status["status"] == "start"`. -/
def scheduler_takes_start_branch (s : StatusRec) : Bool :=
  s.status == "start"

/-! ## CamHelper.capture_frame_robust -/

/-- Outcome of one capture method invocation (the three
`capture_with_*` functions, CamHelper.py:44-100) followed by frame
validation:
* `raised` — the method raised (caught by the per-method `except`);
* `failedRun` — ffmpeg returned a nonzero exit code (`method(...)` False);
* `wrote valid` — the method returned True and `validate_frame` on the
  output file returned `valid`. -/
inductive MethodOutcome
  | raised
  | failedRun
  | wrote (valid : Bool)
deriving DecidableEq

/-- One pass of the `for i, method in enumerate(methods)` loop
(CamHelper.py:115-126) over the given method indices: succeed on the first
method that both runs and validates, otherwise continue. -/
def try_methods (res : Nat → MethodOutcome) : List Nat → Bool
  | [] => false
  | i :: rest =>
    match res i with
    | .wrote true => true
    | _ => try_methods res rest

/-- Embedding of `CamHelper.capture_frame_robust` (CamHelper.py:102-134).
The Python function is recursive; `fuel` bounds the recursion depth in the
embedding and `none` means the fuel ran out before the function returned.
`env r i` is the outcome of method `i` during restart round `r`. -/
def capture_frame_robust (env : Nat → Nat → MethodOutcome) :
    Nat → Nat → Option Bool
  | 0, _ => none
  | fuel + 1, retry_count =>
    if MAX_RETRIES ≤ retry_count then some false
    else if try_methods (env retry_count) [0, 1, 2] then some true
    else if retry_count < MAX_RETRIES then
      capture_frame_robust env fuel (retry_count + 1)
    else some false

/-! ## EzvizCam.TimelapseWorker.capture_best_frame -/

/-- The body of the burst selection loop of `capture_best_frame`
(EzvizCam.py:122-131): thread the state `(best_frame, best_score)` through
attempt `i`.  `att i = none` models `capture_frame_robust` failing for that
attempt (the loop logs and continues); `att i = some s` models a successful
capture whose `get_frame_sharpness` score is `s`.  The state is updated
exactly when `sharpness > best_score`. -/
def best_step (att : Nat → Option ℚ) (st : Option Nat × ℚ) (i : Nat) :
    Option Nat × ℚ :=
  match att i with
  | some s => if st.2 < s then (some i, s) else st
  | none => st

/-- Result of one call to `capture_best_frame`: whether a frame was
accepted, which burst attempt's temp frame was copied into the session
(`none` when nothing was accepted), and the session frame counter after
the call. -/
structure BurstResult where
  ok : Bool
  selected : Option Nat
  frame_count : Nat
deriving DecidableEq

/-- Embedding of `TimelapseWorker.capture_best_frame`
(EzvizCam.py:106-169): bail out when `check_disk_space` fails; otherwise
run 3 burst attempts starting from `(best_frame, best_score) = (None, -1)`,
and accept the best frame only when one was captured and its score is
strictly positive, incrementing `frame_count`; otherwise leave the counter
unchanged. -/
def capture_best_frame (disk_ok : Bool) (att : Nat → Option ℚ)
    (frame_count : Nat) : BurstResult :=
  if !disk_ok then ⟨false, none, frame_count⟩
  else
    let best := [0, 1, 2].foldl (best_step att) (none, -1)
    match best.1 with
    | some j =>
      if 0 < best.2 then ⟨true, some j, frame_count + 1⟩
      else ⟨false, none, frame_count⟩
    | none => ⟨false, none, frame_count⟩

/-! ## main.py: do_action and the action queue worker -/

/-- The job status state machine of the durable action queue
(`DbHelper.ActionStatus`). -/
inductive ActionStatus
  | pending
  | in_progress
  | done
  | failed
deriving DecidableEq

/-- The command kinds `do_action` dispatches on (`DbHelper.ActionType`);
`unknown` covers every other command string (main.py:240-242). -/
inductive Command
  | capture_and_stitching
  | check_config
  | unknown (name : String)
deriving DecidableEq

/-- Token for a raised Python exception. -/
structure Exc where
  msg : String := ""
deriving DecidableEq

/-- One entry of `capture_info` (main.py:170-175): the saved frame path,
the camera it came from, and the channel. -/
structure CaptureRec where
  path : String
  cam : String
  channel : Nat
deriving DecidableEq

/-- Environment of one `do_action` run: every effectful call site of
main.py:117-258 as an oracle.  `macs_present` is whether the job payload
has the `mac_addresses` key; `channels` the parsed channel list;
`selectCams` the `db.select_all` camera lookup (identified by ip);
`mkdir` the capture-folder creation; `capture cam ch` the
`capture_channel` call (frame path, or the exception it raised);
`stitchWrite ch` the `stitch_images` + `cv2.imwrite` step for one channel
group; `metaWrite` the `capture_info.json` dump; `conn cam ch` the
`test_rtsp_connection` result used by `check_config`. -/
structure ActionEnv where
  macs_present : Bool
  channels : List Nat
  selectCams : Except Exc (List String)
  mkdir : Except Exc Unit
  capture : String → Nat → Except Exc String
  stitchWrite : Nat → Except Exc String
  metaWrite : Except Exc Unit
  conn : String → Nat → Bool

/-- The capture double loop (main.py:164-178): one `capture_channel` call
per camera × channel, appending to `capture_info` on success and merely
logging on exception. -/
def collect_captures (env : ActionEnv) (cams : List String) : List CaptureRec :=
  cams.flatMap fun cam =>
    env.channels.filterMap fun ch =>
      match env.capture cam ch with
      | .ok p => some ⟨p, cam, ch⟩
      | .error _ => none

/-- Deduplication keeping the first occurrence — how the
`channel_captures` dict keyed by channel behaves when `channels` holds
duplicates (main.py:189-193). -/
def first_dedup : List Nat → List Nat
  | [] => []
  | x :: xs => x :: (first_dedup xs).filter (fun y => y != x)

/-- The channels that ended up with a nonempty capture group
(main.py:190-193). -/
def active_channels (env : ActionEnv) (capInfo : List CaptureRec) : List Nat :=
  (first_dedup env.channels).filter fun ch => capInfo.any fun r => r.channel == ch

/-- Whether every per-channel stitch-and-write step of main.py:197-206
succeeded (each failure is caught there and flips the status to failed). -/
def stitch_all_ok (env : ActionEnv) (capInfo : List CaptureRec) : Bool :=
  (active_channels env capInfo).all fun ch =>
    match env.stitchWrite ch with
    | .ok _ => true
    | .error _ => false

/-- What the `try` body of `do_action` computed: the status the `finally`
clause will persist, whether the metadata record was written, and the
successful captures. -/
structure BodyResult where
  status : ActionStatus
  metaWritten : Bool
  captures : List CaptureRec
deriving DecidableEq

/-- Embedding of the `try`/`except` body of `do_action`
(main.py:124-246).  Each early `return` carries the `action_status` set
at that point; every modelled exception that reaches an enclosing
`except` clause yields `failed`.  In the capture-and-stitch branch the
status is `failed` when no frame was captured, when the metadata dump
raised, or when any per-channel stitch failed — and `done` otherwise. -/
def do_action_body (env : ActionEnv) (cmd : Command) : BodyResult :=
  if !env.macs_present then ⟨.failed, false, []⟩
  else if !(env.channels.all fun ch => ch == 1 || ch == 2) then ⟨.failed, false, []⟩
  else
    match env.selectCams with
    | .error _ => ⟨.failed, false, []⟩
    | .ok cams =>
      if cams.isEmpty then ⟨.failed, false, []⟩
      else
        match cmd with
        | .capture_and_stitching =>
          match env.mkdir with
          | .error _ => ⟨.failed, false, []⟩
          | .ok _ =>
            let capInfo := collect_captures env cams
            if capInfo.isEmpty then ⟨.failed, false, capInfo⟩
            else
              match env.metaWrite with
              | .ok _ =>
                ⟨if stitch_all_ok env capInfo then .done else .failed, true, capInfo⟩
              | .error _ => ⟨.failed, false, capInfo⟩
        | .check_config =>
          ⟨if cams.all fun cam => env.channels.all fun ch => env.conn cam ch
            then .done else .failed, false, []⟩
        | .unknown _ => ⟨.failed, false, []⟩

/-- One status update issued against the action table:
`db.update_by_id(..., {status, [updated_at]})`. -/
structure DbWrite where
  action_id : Nat
  status : ActionStatus
  hasUpdatedAt : Bool
deriving DecidableEq

/-- Whether a status is terminal for the job state machine. -/
def ActionStatus.isTerminal : ActionStatus → Bool
  | .done => true
  | .failed => true
  | _ => false

/-- Result of a whole `do_action` call: the body outcome plus the writes
performed.  The `finally` clause (main.py:248-258) persists the final
status together with a fresh `updated_at` on every path out of the body. -/
structure ActionResult where
  body : BodyResult
  writes : List DbWrite
deriving DecidableEq

/-- Embedding of `do_action` (main.py:117-258): run the body, then in
`finally` write the resulting status with an updated timestamp. -/
def do_action (env : ActionEnv) (cmd : Command) (action_id : Nat) : ActionResult :=
  let r := do_action_body env cmd
  ⟨r, [⟨action_id, r.status, true⟩]⟩

/-- Status writes the worker performs for one claimed job
(main.py:102-107): mark it `in_progress` (status only, no timestamp)
before any command work, then run `do_action`. -/
def worker_status_writes (env : ActionEnv) (cmd : Command) (action_id : Nat) :
    List DbWrite :=
  ⟨action_id, .in_progress, false⟩ :: (do_action env cmd action_id).writes

/-- Concrete C1 counterexample environment: one camera, channel 1, the
capture succeeds, the stitch raises, the metadata dump succeeds. -/
def stitchFailEnv : ActionEnv :=
  { macs_present := true
  , channels := [1]
  , selectCams := .ok ["cam1"]
  , mkdir := .ok ()
  , capture := fun _ _ => .ok "p1"
  , stitchWrite := fun _ => .error { msg := "stitch raised" }
  , metaWrite := .ok ()
  , conn := fun _ _ => true }

/-- A fully successful capture-and-stitch environment (C1 witness). -/
def allOkEnv : ActionEnv :=
  { macs_present := true
  , channels := [1]
  , selectCams := .ok ["cam1"]
  , mkdir := .ok ()
  , capture := fun _ _ => .ok "p1"
  , stitchWrite := fun _ => .ok "stitched1"
  , metaWrite := .ok ()
  , conn := fun _ _ => true }

/-! ## EzvizCam.TimelapseWorker.create_video -/

/-- Outcome of the ffmpeg encode `subprocess.run` (EzvizCam.py:226):
* `success f` — exit code 0, the temp output holds the finished video `f`;
* `failure leftover` — nonzero exit code, `leftover` is whatever partial
  temp output ffmpeg left behind (possibly nothing);
* `raised leftover` — `subprocess.run` raised (e.g. `TimeoutExpired`),
  again with a possible partial temp output. -/
inductive EncodeOutcome
  | success (f : Nat)
  | failure (leftover : Option Nat)
  | raised (leftover : Option Nat)
deriving DecidableEq

/-- The two output locations `create_video` touches: the published
final output path and the temporary `_tmp` output path, each holding a
file content or nothing. -/
structure VideoFs where
  finalFile : Option Nat
  tempFile : Option Nat
deriving DecidableEq

/-- Environment of one `create_video` call: the session frame count
found by `get_session_frames`, the `renumber_frames_for_video` outcome,
whether `frame_000001.jpg` exists afterwards, and the encode outcome. -/
structure VideoEnv where
  nframes : Nat
  renumberOk : Bool
  firstFrameExists : Bool
  encode : EncodeOutcome
deriving DecidableEq

/-- Embedding of `TimelapseWorker.create_video` (EzvizCam.py:171-250):
early-return `False` (touching no output path) when fewer than 2 frames,
renumbering failed, or the first frame is missing; then run the encode to
the temp path:
* exit 0 → `shutil.move` the temp file to the final path, return `True`;
* nonzero exit → remove the temp file if it exists, final path untouched;
* raised exception → the generic `except` (EzvizCam.py:246-250) returns
  `False` without removing the temp file. -/
def create_video (env : VideoEnv) (fs : VideoFs) : Bool × VideoFs :=
  if env.nframes < 2 then (false, fs)
  else if !env.renumberOk then (false, fs)
  else if !env.firstFrameExists then (false, fs)
  else
    match env.encode with
    | .success f => (true, { finalFile := some f, tempFile := none })
    | .failure _ => (false, { fs with tempFile := none })
    | .raised leftover => (false, { fs with tempFile := leftover })

/-- Concrete C3 counterexample environment: enough frames, renumbering
fine, first frame present, but the encode raises (timeout) after having
written a partial temp file with content 9. -/
def timeoutEnv : VideoEnv :=
  { nframes := 5, renumberOk := true, firstFrameExists := true
  , encode := .raised (some 9) }

/-- A concrete environment whose encode fails with a nonzero exit code,
leaving a partial temp file (C3 witness input). -/
def encodeFailEnv : VideoEnv :=
  { nframes := 5, renumberOk := true, firstFrameExists := true
  , encode := .failure (some 4) }

/-! ## Folder model for common.py and FrameHelper.py -/

/-- A directory: an association list from file name to file content
(content identities drawn from `Nat`).  Real directories have pairwise
distinct names; theorems carry that as a `Nodup` hypothesis. -/
abbrev Folder := List (String × Nat)

/-- The names present in a folder. -/
def fnames (fs : Folder) : List String := fs.map Prod.fst

/-- The content stored under a name, if present. -/
def content (fs : Folder) (nm : String) : Option Nat := fs.lookup nm

/-- Lexicographic comparison of code-point lists — how Python compares
strings.  A prefix precedes its extensions; otherwise the first differing
code point decides. -/
def charsLe : List Char → List Char → Bool
  | [], _ => true
  | _ :: _, [] => false
  | a :: as, b :: bs =>
    if a < b then true
    else if b < a then false
    else charsLe as bs

/-- Python's string order: code-point lexicographic. -/
def py_le (a b : String) : Prop := charsLe a.data b.data = true

instance : DecidableRel py_le := fun a b =>
  instDecidableEqBool (charsLe a.data b.data) true

/-- Python's `sorted` on strings, as an insertion sort by `py_le`
(any comparison sort agrees on duplicate-free inputs). -/
def py_sorted (l : List String) : List String :=
  l.insertionSort py_le

/-- The glob pattern `frame_*.jpg` of `get_session_frames`
(common.py:104): prefix `frame_` and suffix `.jpg` (the star may match the
empty string, and no shorter name can carry both, so prefix-and-suffix is
exactly the glob). -/
def is_frame_name (s : String) : Bool :=
  "frame_".toList.isPrefixOf s.toList && ".jpg".toList.isSuffixOf s.toList

/-- Embedding of `common.get_session_frames` (common.py:102-106): the
matching names of the frame folder, sorted. -/
def get_session_frames (fs : Folder) : List String :=
  py_sorted ((fnames fs).filter is_frame_name)

/-- Little-endian decimal digits by structural recursion on a fuel bound
(kernel-evaluable; agrees with `Nat.digits 10` whenever `n ≤ fuel`). -/
def digitsRev : Nat → Nat → List Nat
  | 0, _ => []
  | fuel + 1, n => if n = 0 then [] else n % 10 :: digitsRev fuel (n / 10)

/-- Big-endian decimal digits of `n` zero-padded to width 6 — the digit
string of Python's `f"{n:06d}"`. -/
def pad6 (n : Nat) : List Nat :=
  List.replicate (6 - (digitsRev n n).length) 0 ++ (digitsRev n n).reverse

/-- The session frame name `f"frame_{n:06d}.jpg"` (common.py:125). -/
def numName (n : Nat) : String :=
  ⟨"frame_".toList ++ (pad6 n).map Nat.digitChar ++ ".jpg".toList⟩

/-- The contiguous name sequence `frame_000001.jpg .. frame_{N:06d}.jpg`. -/
def contiguousNames (N : Nat) : List String :=
  (List.range N).map fun k => numName (k + 1)

/-- Embedding of `common.renumber_frames_for_video` (common.py:109-147):
`none` is the `False` early return when no session frame matches;
otherwise copy the k-th matching file (1-based, in sorted name order) to
the scratch name `frame_{k:06d}.jpg`, delete every matching original, and
move the scratch files back into the folder. -/
def renumber_frames_for_video (fs : Folder) : Option Folder :=
  let frame_files := get_session_frames fs
  if frame_files.isEmpty then none
  else
    let temp := frame_files.enum.map fun p =>
      (numName (p.1 + 1), (content fs p.2).getD 0)
    some (fs.filter (fun e => !is_frame_name e.1) ++ temp)

/-- The backup pattern of `cleanup_old_backups` (FrameHelper.py:22):
`f.startswith("backup_")`. -/
def is_backup_name (s : String) : Bool :=
  "backup_".toList.isPrefixOf s.toList

/-- Embedding of `FrameHelper.cleanup_old_backups` (FrameHelper.py:19-30):
sort the backup names; when more than 100 exist, remove all but the last
100 in name order (`backup_files[:-100]`); otherwise touch nothing. -/
def cleanup_old_backups (fs : Folder) : Folder :=
  let backup_files := py_sorted ((fnames fs).filter is_backup_name)
  if 100 < backup_files.length then
    let files_to_remove := backup_files.take (backup_files.length - 100)
    fs.filter fun e => !(files_to_remove.contains e.1)
  else fs

/-- The C6 witness folder: session frames 1, 3 and 4 (a gap at 2) holding
contents 11, 33 and 44. -/
def gapFolder : Folder :=
  [(numName 1, 11), (numName 3, 33), (numName 4, 44)]

/-- The C7 witness folder: an already-contiguous session 1..2. -/
def contiguousFolder : Folder :=
  [(numName 1, 5), (numName 2, 6)]

/-- The C8 witness folder: two backups and one unrelated file. -/
def backupFolder : Folder :=
  [("backup_b", 1), ("backup_a", 2), ("other", 3)]

/-! ## Theorems: C4, C9, C10 -/

/-- C4.  The claim states `validate_frame` accepts exactly when size,
dimensions and brightness clear *strict* thresholds (size > 1000 bytes,
dimensions > 100, brightness strictly inside (5, 250)).  The code uses
non-strict acceptance (`size < 1000`, `dims < 100`, `brightness < 5 or
brightness > 250` reject): a 1000-byte 100×100 frame of mean brightness
exactly 5 is accepted by the code yet rejected by every one of the
claim's three strict conditions. -/
theorem validate_frame_strict_thresholds_cex :
    validate_frame boundaryFrame = true ∧ ¬ validateSpecStrict boundaryFrame := by
  constructor
  · rfl
  · decide

/-- C4 (amended).  `validate_frame` accepts a frame iff the file exists,
it decodes, its size is at least 1000 bytes, both dimensions are at least
100 pixels, and the mean grayscale brightness lies in the closed interval
[5, 250]; all thresholds are inclusive. -/
theorem validate_frame_iff (f : FrameFile) :
    validate_frame f = true ↔
      f.onDisk = true ∧ ∃ img, f.decoded = some img ∧
        1000 ≤ f.size ∧ 100 ≤ img.width ∧ 100 ≤ img.height ∧
        5 ≤ img.brightness ∧ img.brightness ≤ 250 := by
  obtain ⟨d, sz, dec⟩ := f
  cases d with
  | false => simp [validate_frame]
  | true =>
    cases dec with
    | none => simp [validate_frame]
    | some img =>
      simp only [validate_frame, Bool.not_true, Bool.false_eq_true, if_false,
        Option.some.injEq, true_and, exists_eq_left']
      constructor
      · intro hv
        split_ifs at hv with h1 h2 h3
        simp only [Bool.or_eq_true, decide_eq_true_eq, not_or] at h2 h3
        push_neg at h1 h2 h3
        exact ⟨h1, h2.1, h2.2, h3.1, h3.2⟩
      · rintro ⟨hsz, hw, hh, hb1, hb2⟩
        rw [if_neg (by omega),
          if_neg (by
            simp only [Bool.or_eq_true, decide_eq_true_eq, not_or]
            exact ⟨by omega, by omega⟩),
          if_neg (by
            simp only [Bool.or_eq_true, decide_eq_true_eq, not_or]
            exact ⟨not_lt.mpr hb1, not_lt.mpr hb2⟩)]

/-- C10.  Whenever reading the control file fails — for every kind of
failure (missing file, unreadable file, malformed JSON) — `read_status`
returns the default record `{"status": "stop", "processing": False}`, whose
status is not `"start"`, so the scheduler loop takes its stop branch and
sees no assembly in progress. -/
theorem read_status_failure_default (e : ReadError) :
    read_status (.error e) = { status := "stop", processing := false } ∧
      scheduler_takes_start_branch (read_status (.error e)) = false ∧
      (read_status (.error e)).processing = false := by
  refine ⟨rfl, ?_, rfl⟩
  rfl

/-- C9.  The retry recursion of `capture_frame_robust` is bounded: from
retry count `r`, fuel `MAX_RETRIES + 1 - r` always suffices for the call to
return (so the recursion depth never exceeds `MAX_RETRIES` restarts), and
when every restart round fails to produce an accepted frame the returned
value is `False`. -/
theorem capture_frame_robust_terminates (env : Nat → Nat → MethodOutcome)
    (r fuel : Nat) (hfuel : MAX_RETRIES - r < fuel) :
    (capture_frame_robust env fuel r).isSome = true ∧
      ((∀ round, try_methods (env round) [0, 1, 2] = false) →
        capture_frame_robust env fuel r = some false) := by
  induction fuel generalizing r with
  | zero =>
    exfalso
    omega
  | succ n ih =>
    unfold capture_frame_robust
    split_ifs with h1 h2 h3
    · exact ⟨rfl, fun _ => rfl⟩
    · refine ⟨rfl, fun hall => ?_⟩
      rw [hall r] at h2
      cases h2
    · exact ih (r + 1) (by simp only [MAX_RETRIES] at h1 hfuel ⊢ ; omega)
    · exact ⟨rfl, fun _ => rfl⟩

/-- Witness for C9 at a concrete environment in which every method of
every round raises: fuel `MAX_RETRIES + 1` suffices from retry count 0 and
the call returns `False`. -/
theorem capture_frame_robust_terminates_witness :
    (capture_frame_robust (fun _ _ => .raised) (MAX_RETRIES + 1) 0).isSome = true ∧
      capture_frame_robust (fun _ _ => .raised) (MAX_RETRIES + 1) 0 = some false := by
  have h := capture_frame_robust_terminates (fun _ _ => .raised) 0 (MAX_RETRIES + 1)
    (by simp [MAX_RETRIES])
  exact ⟨h.1, h.2 (fun _ => rfl)⟩

/-- Witness for C10 at the concrete error `missingFile`. -/
theorem read_status_failure_default_witness :
    read_status (.error .missingFile) = { status := "stop", processing := false } :=
  (read_status_failure_default .missingFile).1

/-! ## Order properties of the Python string comparison -/

theorem charsLe_cons_iff {a b : Char} {as bs : List Char} :
    charsLe (a :: as) (b :: bs) = true ↔ a < b ∨ (a = b ∧ charsLe as bs = true) := by
  rw [charsLe.eq_3]
  split_ifs with h1 h2
  · exact iff_of_true rfl (Or.inl h1)
  · constructor
    · intro h ; cases h
    · rintro (h | ⟨rfl, -⟩)
      · exact absurd h h1
      · exact absurd h2 (lt_irrefl a)
  · have hab : a = b := le_antisymm (not_lt.mp h2) (not_lt.mp h1)
    subst hab
    constructor
    · intro h
      exact Or.inr ⟨rfl, h⟩
    · rintro (h | ⟨-, h⟩)
      · exact absurd h h1
      · exact h

theorem charsLe_total : ∀ x y : List Char, charsLe x y = true ∨ charsLe y x = true
  | [], _ => Or.inl rfl
  | _ :: _, [] => Or.inr rfl
  | a :: as, b :: bs => by
    rcases lt_trichotomy a b with h | h | h
    · exact Or.inl (charsLe_cons_iff.mpr (Or.inl h))
    · subst h
      rcases charsLe_total as bs with ih | ih
      · exact Or.inl (charsLe_cons_iff.mpr (Or.inr ⟨rfl, ih⟩))
      · exact Or.inr (charsLe_cons_iff.mpr (Or.inr ⟨rfl, ih⟩))
    · exact Or.inr (charsLe_cons_iff.mpr (Or.inl h))

theorem charsLe_trans : ∀ x y z : List Char,
    charsLe x y = true → charsLe y z = true → charsLe x z = true
  | [], _, _, _, _ => rfl
  | _ :: _, [], _, h, _ => by simp [charsLe] at h
  | _ :: _, _ :: _, [], _, h => by simp [charsLe] at h
  | a :: as, b :: bs, c :: cs, h1, h2 => by
    rcases charsLe_cons_iff.mp h1 with hab | ⟨rfl, hab⟩
    · rcases charsLe_cons_iff.mp h2 with hbc | ⟨rfl, hbc⟩
      · exact charsLe_cons_iff.mpr (Or.inl (lt_trans hab hbc))
      · exact charsLe_cons_iff.mpr (Or.inl hab)
    · rcases charsLe_cons_iff.mp h2 with hbc | ⟨rfl, hbc⟩
      · exact charsLe_cons_iff.mpr (Or.inl hbc)
      · exact charsLe_cons_iff.mpr (Or.inr ⟨rfl, charsLe_trans as bs cs hab hbc⟩)

theorem charsLe_antisymm : ∀ x y : List Char,
    charsLe x y = true → charsLe y x = true → x = y
  | [], [], _, _ => rfl
  | [], _ :: _, _, h => by simp [charsLe] at h
  | _ :: _, [], h, _ => by simp [charsLe] at h
  | a :: as, b :: bs, h1, h2 => by
    rcases charsLe_cons_iff.mp h1 with hab | ⟨rfl, hab⟩
    · rcases charsLe_cons_iff.mp h2 with hba | ⟨rfl, hba⟩
      · exact absurd (lt_trans hab hba) (lt_irrefl a)
      · exact absurd hab (lt_irrefl b)
    · rcases charsLe_cons_iff.mp h2 with hba | ⟨-, hba⟩
      · exact absurd hba (lt_irrefl a)
      · rw [charsLe_antisymm as bs hab hba]

theorem py_le_total (a b : String) : py_le a b ∨ py_le b a :=
  charsLe_total a.data b.data

theorem py_le_trans {a b c : String} (h1 : py_le a b) (h2 : py_le b c) : py_le a c :=
  charsLe_trans a.data b.data c.data h1 h2

theorem py_le_antisymm {a b : String} (h1 : py_le a b) (h2 : py_le b a) : a = b := by
  cases a with
  | mk da =>
    cases b with
    | mk db =>
      exact congrArg String.mk (charsLe_antisymm da db h1 h2)

/-! ## Decimal digit strings and `numName` -/

theorem digitsRev_eq_digits (fuel : Nat) : ∀ n, n ≤ fuel →
    digitsRev fuel n = Nat.digits 10 n := by
  induction fuel with
  | zero =>
    intro n hn
    obtain rfl : n = 0 := Nat.le_zero.mp hn
    simp [digitsRev]
  | succ f ih =>
    intro n hn
    by_cases h0 : n = 0
    · subst h0 ; simp [digitsRev]
    · have hdiv : n / 10 ≤ f := by
        have := Nat.div_lt_self (Nat.pos_of_ne_zero h0) (by norm_num : 1 < 10)
        omega
      simp only [digitsRev, if_neg h0]
      rw [Nat.digits_def' (by norm_num : (1:ℕ) < 10) (Nat.pos_of_ne_zero h0),
        ih (n / 10) hdiv]

theorem pad6_lt_ten (n : Nat) : ∀ d ∈ pad6 n, d < 10 := by
  intro d hd
  unfold pad6 at hd
  rw [digitsRev_eq_digits n n le_rfl] at hd
  rcases List.mem_append.mp hd with h | h
  · rw [List.eq_of_mem_replicate h] ; norm_num
  · exact Nat.digits_lt_base (by norm_num) (List.mem_reverse.mp h)

theorem ofDigits_replicate_zero : ∀ k, Nat.ofDigits 10 (List.replicate k 0) = 0
  | 0 => rfl
  | k + 1 => by
    rw [List.replicate_succ, Nat.ofDigits_cons, ofDigits_replicate_zero k]

theorem pad6_val (n : Nat) : Nat.ofDigits 10 (pad6 n).reverse = n := by
  unfold pad6
  rw [digitsRev_eq_digits n n le_rfl, List.reverse_append, List.reverse_reverse,
    List.reverse_replicate, Nat.ofDigits_append, Nat.ofDigits_digits,
    ofDigits_replicate_zero]
  simp

theorem pad6_len {n : Nat} (hn : n < 10 ^ 6) : (pad6 n).length = 6 := by
  unfold pad6
  rw [digitsRev_eq_digits n n le_rfl]
  have hlen : (Nat.digits 10 n).length ≤ 6 := by
    rcases Nat.eq_zero_or_pos n with rfl | hpos
    · simp
    · rw [Nat.digits_len 10 n (by norm_num) hpos.ne']
      have := (Nat.lt_pow_iff_log_lt (by norm_num : 1 < 10) hpos.ne').mp hn
      omega
  simp only [List.length_append, List.length_replicate, List.length_reverse]
  omega

theorem digitChar_lt_digitChar : ∀ a b : Fin 10, a < b →
    Nat.digitChar a.val < Nat.digitChar b.val := by decide

theorem digitChar_inj_digits : ∀ a b : Fin 10,
    Nat.digitChar a.val = Nat.digitChar b.val → a = b := by decide

theorem charsLe_append_same : ∀ p x y : List Char,
    charsLe (p ++ x) (p ++ y) = charsLe x y
  | [], _, _ => rfl
  | c :: p, x, y => by
    show (if c < c then true else if c < c then false
      else charsLe (p ++ x) (p ++ y)) = charsLe x y
    rw [if_neg (lt_irrefl c), if_neg (lt_irrefl c)]
    exact charsLe_append_same p x y

theorem digits_lt_charsLe : ∀ xs ys : List Nat, xs.length = ys.length →
    (∀ d ∈ xs, d < 10) → (∀ d ∈ ys, d < 10) →
    Nat.ofDigits 10 xs.reverse < Nat.ofDigits 10 ys.reverse →
    ∀ u v, charsLe (xs.map Nat.digitChar ++ u) (ys.map Nat.digitChar ++ v) = true
  | [], [], _, _, _, hv, _, _ => by simp at hv
  | [], _ :: _, hlen, _, _, _, _, _ => by simp at hlen
  | _ :: _, [], hlen, _, _, _, _, _ => by simp at hlen
  | a :: as, b :: bs, hlen, hx, hy, hv, u, v => by
    have hlen' : as.length = bs.length := by simpa using hlen
    have ha : a < 10 := hx a (List.mem_cons_self a as)
    have hb : b < 10 := hy b (List.mem_cons_self b bs)
    have hva : Nat.ofDigits 10 (a :: as).reverse =
        Nat.ofDigits 10 as.reverse + 10 ^ as.length * a := by
      rw [List.reverse_cons, Nat.ofDigits_append, Nat.ofDigits_singleton,
        List.length_reverse]
    have hvb : Nat.ofDigits 10 (b :: bs).reverse =
        Nat.ofDigits 10 bs.reverse + 10 ^ bs.length * b := by
      rw [List.reverse_cons, Nat.ofDigits_append, Nat.ofDigits_singleton,
        List.length_reverse]
    simp only [List.map_cons, List.cons_append]
    rcases lt_trichotomy a b with hab | hab | hab
    · exact charsLe_cons_iff.mpr (Or.inl (digitChar_lt_digitChar ⟨a, ha⟩ ⟨b, hb⟩ hab))
    · subst hab
      have hv' : Nat.ofDigits 10 as.reverse < Nat.ofDigits 10 bs.reverse := by
        rw [hva, hvb, hlen'] at hv
        exact Nat.lt_of_add_lt_add_right hv
      exact charsLe_cons_iff.mpr (Or.inr ⟨rfl,
        digits_lt_charsLe as bs hlen'
          (fun d hd => hx d (List.mem_cons_of_mem a hd))
          (fun d hd => hy d (List.mem_cons_of_mem a hd)) hv' u v⟩)
    · exfalso
      have hbound : Nat.ofDigits 10 bs.reverse < 10 ^ bs.length := by
        have := Nat.ofDigits_lt_base_pow_length (b := 10) (l := bs.reverse)
          (by norm_num)
          (fun x hx' => hy x (List.mem_cons_of_mem b (List.mem_reverse.mp hx')))
        rwa [List.length_reverse] at this
      rw [hva, hvb, hlen'] at hv
      have hstep : 10 ^ bs.length * (b + 1) ≤ 10 ^ bs.length * a :=
        Nat.mul_le_mul_left _ (Nat.succ_le_of_lt hab)
      have hgt : Nat.ofDigits 10 bs.reverse + 10 ^ bs.length * b <
          Nat.ofDigits 10 as.reverse + 10 ^ bs.length * a := by
        have h1 : Nat.ofDigits 10 bs.reverse + 10 ^ bs.length * b <
            10 ^ bs.length * (b + 1) := by
          rw [Nat.mul_add, Nat.mul_one]
          omega
        omega
      omega

theorem numName_le {a b : Nat} (hab : a < b) (hb : b < 10 ^ 6) :
    py_le (numName a) (numName b) := by
  show charsLe ("frame_".toList ++ (pad6 a).map Nat.digitChar ++ ".jpg".toList)
    ("frame_".toList ++ (pad6 b).map Nat.digitChar ++ ".jpg".toList) = true
  rw [List.append_assoc, List.append_assoc, charsLe_append_same]
  exact digits_lt_charsLe (pad6 a) (pad6 b)
    (by rw [pad6_len (lt_trans hab hb), pad6_len hb])
    (pad6_lt_ten a) (pad6_lt_ten b)
    (by rw [pad6_val, pad6_val] ; exact hab) _ _

theorem map_digitChar_inj : ∀ xs ys : List Nat,
    (∀ d ∈ xs, d < 10) → (∀ d ∈ ys, d < 10) →
    xs.map Nat.digitChar = ys.map Nat.digitChar → xs = ys
  | [], [], _, _, _ => rfl
  | [], _ :: _, _, _, h => by simp at h
  | _ :: _, [], _, _, h => by simp at h
  | a :: as, b :: bs, hx, hy, h => by
    simp only [List.map_cons, List.cons.injEq] at h
    have hab : (⟨a, hx a (by simp)⟩ : Fin 10) = ⟨b, hy b (by simp)⟩ :=
      digitChar_inj_digits _ _ h.1
    have hab' : a = b := congrArg Fin.val hab
    subst hab'
    rw [map_digitChar_inj as bs
      (fun d hd => hx d (List.mem_cons_of_mem a hd))
      (fun d hd => hy d (List.mem_cons_of_mem a hd)) h.2]

theorem numName_inj {a b : Nat} (h : numName a = numName b) : a = b := by
  have hdata : "frame_".toList ++ (pad6 a).map Nat.digitChar ++ ".jpg".toList =
      "frame_".toList ++ (pad6 b).map Nat.digitChar ++ ".jpg".toList :=
    congrArg String.data h
  rw [List.append_assoc, List.append_assoc] at hdata
  have h1 := List.append_cancel_left hdata
  have h2 := List.append_cancel_right h1
  have h3 := map_digitChar_inj _ _ (pad6_lt_ten a) (pad6_lt_ten b) h2
  have hv := congrArg (fun l => Nat.ofDigits 10 l.reverse) h3
  simpa [pad6_val] using hv

theorem is_frame_name_numName (n : Nat) : is_frame_name (numName n) = true := by
  unfold is_frame_name
  rw [Bool.and_eq_true]
  constructor
  · rw [List.isPrefixOf_iff_prefix]
    show "frame_".toList <+:
      "frame_".toList ++ (pad6 n).map Nat.digitChar ++ ".jpg".toList
    rw [List.append_assoc]
    exact List.prefix_append _ _
  · rw [List.isSuffixOf_iff_suffix]
    exact List.suffix_append _ _

/-! ## The contiguous name sequence -/

theorem contiguousNames_length (N : Nat) : (contiguousNames N).length = N := by
  simp [contiguousNames]

theorem contiguousNames_get {N k : Nat} (hk : k < (contiguousNames N).length) :
    (contiguousNames N).get ⟨k, hk⟩ = numName (k + 1) := by
  simp [contiguousNames]

theorem mem_contiguousNames {N : Nat} {nm : String} :
    nm ∈ contiguousNames N ↔ ∃ k, k < N ∧ nm = numName (k + 1) := by
  unfold contiguousNames
  simp only [List.mem_map, List.mem_range]
  constructor
  · rintro ⟨k, hk, rfl⟩
    exact ⟨k, hk, rfl⟩
  · rintro ⟨k, hk, rfl⟩
    exact ⟨k, hk, rfl⟩

theorem contiguousNames_nodup (N : Nat) : (contiguousNames N).Nodup := by
  refine List.Nodup.map ?_ (List.nodup_range N)
  intro a b h
  have := numName_inj h
  omega

theorem contiguousNames_sorted {N : Nat} (hN : N < 10 ^ 6) :
    (contiguousNames N).Pairwise py_le := by
  unfold contiguousNames
  rw [List.pairwise_map]
  refine List.Pairwise.imp_of_mem ?_ (List.pairwise_lt_range N)
  intro a b ha hb hab
  rw [List.mem_range] at hb
  exact numName_le (by omega) (by omega)

/-! ## Sorting facts -/

theorem py_sorted_perm (l : List String) : List.Perm (py_sorted l) l :=
  List.perm_insertionSort py_le l

theorem py_sorted_sorted (l : List String) : (py_sorted l).Pairwise py_le := by
  haveI : IsTotal String py_le := ⟨py_le_total⟩
  haveI : IsTrans String py_le := ⟨fun _ _ _ => py_le_trans⟩
  exact List.sorted_insertionSort py_le l

theorem py_sorted_eq_contiguous {l : List String} {N : Nat}
    (hperm : List.Perm l (contiguousNames N)) (hN : N < 10 ^ 6) :
    py_sorted l = contiguousNames N := by
  haveI : IsAntisymm String py_le := ⟨fun _ _ => py_le_antisymm⟩
  exact List.eq_of_perm_of_sorted ((py_sorted_perm l).trans hperm)
    (py_sorted_sorted l) (contiguousNames_sorted hN)

/-! ## Folder lookup facts -/

theorem fnames_filter (fs : Folder) (p : String → Bool) :
    fnames (fs.filter fun e => p e.1) = (fnames fs).filter p :=
  (List.filter_map Prod.fst fs).symm

theorem lookup_some_of_mem_fnames {fs : Folder} {nm : String}
    (h : nm ∈ fnames fs) : ∃ c, fs.lookup nm = some c := by
  have hs : (fs.lookup nm).isSome := by
    rw [List.lookup_isSome_iff]
    obtain ⟨e, he, hfst⟩ := List.mem_map.mp h
    exact ⟨e, he, beq_iff_eq.mpr hfst.symm⟩
  exact Option.isSome_iff_exists.mp hs

theorem lookup_filter_not_matching (p : String → Bool) :
    ∀ (fs : Folder) (nm : String), p nm = false →
    (fs.filter fun e => !p e.1).lookup nm = fs.lookup nm
  | [], _, _ => rfl
  | (a, c) :: rest, nm, hnm => by
    cases ha : p a with
    | true =>
      have hne : (nm == a) = false := by
        rw [beq_eq_false_iff_ne]
        rintro rfl
        rw [hnm] at ha
        cases ha
      rw [List.filter_cons, if_neg (by simp [ha]), List.lookup_cons]
      rw [lookup_filter_not_matching p rest nm hnm]
      simp [hne]
    | false =>
      rw [List.filter_cons, if_pos (by simp [ha]), List.lookup_cons, List.lookup_cons]
      cases heq : nm == a with
      | true => rfl
      | false =>
        simp only [cond_false]
        exact lookup_filter_not_matching p rest nm hnm

theorem lookup_zip_get : ∀ (names : List String) (vals : List Nat),
    names.Nodup → names.length = vals.length →
    ∀ k (hk : k < names.length) (hk2 : k < vals.length),
    (names.zip vals).lookup (names.get ⟨k, hk⟩) = some (vals.get ⟨k, hk2⟩)
  | [], _, _, _, _, hk, _ => by simp at hk
  | _ :: _, [], _, _, _, _, hk2 => by simp at hk2
  | n :: ns, v :: vs, hnd, hlen, 0, hk, hk2 => by
    simp [List.zip_cons_cons]
  | n :: ns, v :: vs, hnd, hlen, k + 1, hk, hk2 => by
    have hk' : k < ns.length := by simpa using hk
    have hk2' : k < vs.length := by simpa using hk2
    have hmem : ns.get ⟨k, hk'⟩ ∈ ns := ns.get_mem k hk'
    have hne : (ns.get ⟨k, hk'⟩ == n) = false := by
      rw [beq_eq_false_iff_ne]
      intro heq
      rw [heq] at hmem
      exact (List.nodup_cons.mp hnd).1 hmem
    show ((n, v) :: ns.zip vs).lookup (ns.get ⟨k, hk'⟩) = some (vs.get ⟨k, hk2'⟩)
    rw [List.lookup_cons]
    simp only [hne, cond_false]
    exact lookup_zip_get ns vs (List.nodup_cons.mp hnd).2 (by simpa using hlen) k hk' hk2'

/-! ## The renumbering helper -/

theorem content_append (A B : Folder) (nm : String) :
    content (A ++ B) nm = (A.lookup nm).or (B.lookup nm) :=
  List.lookup_append

theorem renumber_general (fs : Folder) (_hnd : (fnames fs).Nodup)
    (hne : get_session_frames fs ≠ []) :
    ∃ fs', renumber_frames_for_video fs = some fs' ∧
      fnames fs' = (fnames fs).filter (fun nm => !is_frame_name nm) ++
        contiguousNames (get_session_frames fs).length ∧
      (∀ k (hk : k < (get_session_frames fs).length),
        content fs' (numName (k + 1)) =
          content fs ((get_session_frames fs).get ⟨k, hk⟩)) ∧
      (∀ nm, is_frame_name nm = false → content fs' nm = content fs nm) ∧
      (∀ nm, is_frame_name nm = true →
        nm ∉ contiguousNames (get_session_frames fs).length →
        content fs' nm = none) := by
  have hempty : (get_session_frames fs).isEmpty = false := by
    cases h : (get_session_frames fs).isEmpty
    · rfl
    · exact absurd (List.isEmpty_iff.mp h) hne
  have hprod : (fun p : Nat × String => (numName (p.1 + 1), (content fs p.2).getD 0)) =
      Prod.map (fun k => numName (k + 1)) (fun nm => (content fs nm).getD 0) := rfl
  have htemp : (get_session_frames fs).enum.map
        (fun p => (numName (p.1 + 1), (content fs p.2).getD 0)) =
      (contiguousNames (get_session_frames fs).length).zip
        ((get_session_frames fs).map (fun nm => (content fs nm).getD 0)) := by
    rw [List.enum_eq_zip_range, hprod, ← List.zip_map]
    rfl
  have hlen_names : (contiguousNames (get_session_frames fs).length).length =
      (get_session_frames fs).length := contiguousNames_length _
  have hlen_vals : ((get_session_frames fs).map
      (fun nm => (content fs nm).getD 0)).length = (get_session_frames fs).length :=
    List.length_map _ _
  have hkeep_none : ∀ nm, is_frame_name nm = true →
      (fs.filter (fun e => !is_frame_name e.1)).lookup nm = none := by
    intro nm hpat
    rw [List.lookup_eq_none_iff]
    intro p hp
    have hfalse : is_frame_name p.1 = false := by
      have := (List.mem_filter.mp hp).2
      simpa using this
    rw [bne_iff_ne]
    intro heq
    rw [heq, hfalse] at hpat
    cases hpat
  have htemp_none : ∀ nm, nm ∉ contiguousNames (get_session_frames fs).length →
      ((contiguousNames (get_session_frames fs).length).zip
        ((get_session_frames fs).map (fun nm => (content fs nm).getD 0))).lookup
        nm = none := by
    intro nm hnot
    rw [List.lookup_eq_none_iff]
    rintro ⟨p1, p2⟩ hp
    have hp1 := (List.of_mem_zip hp).1
    rw [bne_iff_ne]
    rintro rfl
    exact hnot hp1
  have hrn : renumber_frames_for_video fs =
      some (fs.filter (fun e => !is_frame_name e.1) ++
        (contiguousNames (get_session_frames fs).length).zip
          ((get_session_frames fs).map (fun nm => (content fs nm).getD 0))) := by
    unfold renumber_frames_for_video
    simp only [hempty, Bool.false_eq_true, if_false, htemp]
  refine ⟨_, hrn, ?_, ?_, ?_, ?_⟩
  · unfold fnames
    rw [List.map_append]
    congr 1
    · exact fnames_filter fs (fun nm => !is_frame_name nm)
    · exact List.map_fst_zip _ _ (by rw [hlen_names, hlen_vals])
  · intro k hk
    rw [content_append, hkeep_none _ (is_frame_name_numName _), Option.none_or]
    have hk1 : k < (contiguousNames (get_session_frames fs).length).length := by
      rw [hlen_names] ; exact hk
    have hk2 : k < ((get_session_frames fs).map
        (fun nm => (content fs nm).getD 0)).length := by
      rw [hlen_vals] ; exact hk
    have hlook := lookup_zip_get _ _ (contiguousNames_nodup _)
      (by rw [hlen_names, hlen_vals]) k hk1 hk2
    rw [contiguousNames_get] at hlook
    rw [hlook]
    have hval : ((get_session_frames fs).map
        (fun nm => (content fs nm).getD 0)).get ⟨k, hk2⟩ =
        (content fs ((get_session_frames fs).get ⟨k, hk⟩)).getD 0 := by
      simp [List.get_eq_getElem, List.getElem_map]
    rw [hval]
    have hmemsf : (get_session_frames fs).get ⟨k, hk⟩ ∈ get_session_frames fs :=
      (get_session_frames fs).get_mem k hk
    have hmem : (get_session_frames fs).get ⟨k, hk⟩ ∈ fnames fs := by
      have h1 := hmemsf
      unfold get_session_frames py_sorted at h1
      rw [List.mem_insertionSort] at h1
      exact List.mem_of_mem_filter h1
    obtain ⟨c, hc⟩ := lookup_some_of_mem_fnames hmem
    have hc' : content fs ((get_session_frames fs).get ⟨k, hk⟩) = some c := hc
    rw [hc']
    rfl
  · intro nm hnm
    have hnot : nm ∉ contiguousNames (get_session_frames fs).length := by
      intro hmem
      obtain ⟨j, hj, rfl⟩ := mem_contiguousNames.mp hmem
      rw [is_frame_name_numName] at hnm
      cases hnm
    rw [content_append, htemp_none nm hnot, Option.or_none,
      lookup_filter_not_matching is_frame_name fs nm hnm]
    rfl
  · intro nm hpat hnot
    rw [content_append, hkeep_none nm hpat, htemp_none nm hnot]
    rfl


/-- Invariant of the burst selection loop: folding `best_step` from
`(None, -1)` over a strictly increasing list of attempt indices either
leaves the initial state (and then every captured score is at most `-1`)
or lands on the earliest attempt holding the maximal score. -/
theorem foldl_best_spec (att : Nat → Option ℚ) (l : List Nat)
    (hl : l.Pairwise (· < ·)) :
    (l.foldl (best_step att) (none, -1) = (none, -1) ∧
      ∀ i ∈ l, ∀ s, att i = some s → s ≤ -1) ∨
    (∃ j, j ∈ l ∧
      (l.foldl (best_step att) (none, -1)).1 = some j ∧
      att j = some (l.foldl (best_step att) (none, -1)).2 ∧
      (-1 : ℚ) < (l.foldl (best_step att) (none, -1)).2 ∧
      (∀ i ∈ l, ∀ s, att i = some s → s ≤ (l.foldl (best_step att) (none, -1)).2) ∧
      (∀ i ∈ l, i < j → ∀ s, att i = some s →
        s < (l.foldl (best_step att) (none, -1)).2)) := by
  induction l using List.reverseRecOn with
  | nil => exact Or.inl ⟨rfl, by simp⟩
  | append_singleton l k ih =>
    rw [List.pairwise_append] at hl
    obtain ⟨hpl, -, hlt⟩ := hl
    have hlt' : ∀ i ∈ l, i < k := fun i hi => hlt i hi k (List.mem_singleton_self k)
    rw [List.foldl_append, List.foldl_cons, List.foldl_nil]
    rcases ih hpl with ⟨heq, hsmall⟩ | ⟨j, hj, hfst, hatt, hpos, hmax, hstrict⟩
    · rw [heq]
      cases hk : att k with
      | none =>
        simp only [best_step, hk]
        refine Or.inl ⟨trivial, fun i hi s hs => ?_⟩
        rcases List.mem_append.mp hi with hi | hi
        · exact hsmall i hi s hs
        · rw [List.mem_singleton.mp hi] at hs
          rw [hk] at hs
          cases hs
      | some s =>
        simp only [best_step, hk]
        by_cases hwin : ((none, (-1 : ℚ)) : Option Nat × ℚ).2 < s
        · rw [if_pos hwin]
          refine Or.inr ⟨k, List.mem_append_right l (List.mem_singleton_self k),
            rfl, hk, hwin, ?_, ?_⟩
          · intro i hi t ht
            rcases List.mem_append.mp hi with hi | hi
            · exact le_of_lt (lt_of_le_of_lt (hsmall i hi t ht) hwin)
            · rw [List.mem_singleton.mp hi, hk] at ht
              cases ht
              exact le_refl _
          · intro i hi hik t ht
            rcases List.mem_append.mp hi with hi | hi
            · exact lt_of_le_of_lt (hsmall i hi t ht) hwin
            · rw [List.mem_singleton.mp hi] at hik
              exact absurd hik (lt_irrefl k)
        · rw [if_neg hwin]
          push_neg at hwin
          refine Or.inl ⟨rfl, fun i hi t ht => ?_⟩
          rcases List.mem_append.mp hi with hi | hi
          · exact hsmall i hi t ht
          · rw [List.mem_singleton.mp hi, hk] at ht
            cases ht
            exact hwin
    · set r := l.foldl (best_step att) (none, -1) with hr
      cases hk : att k with
      | none =>
        simp only [best_step, hk]
        refine Or.inr ⟨j, List.mem_append_left _ hj, hfst, hatt, hpos, ?_, ?_⟩
        · intro i hi t ht
          rcases List.mem_append.mp hi with hi | hi
          · exact hmax i hi t ht
          · rw [List.mem_singleton.mp hi, hk] at ht
            cases ht
        · intro i hi hik t ht
          rcases List.mem_append.mp hi with hi | hi
          · exact hstrict i hi hik t ht
          · rw [List.mem_singleton.mp hi] at hik
            exact absurd (lt_trans (hlt' j hj) hik) (lt_irrefl j)
      | some s =>
        simp only [best_step, hk]
        by_cases hwin : r.2 < s
        · rw [if_pos hwin]
          refine Or.inr ⟨k, List.mem_append_right l (List.mem_singleton_self k),
            rfl, hk, lt_trans hpos hwin, ?_, ?_⟩
          · intro i hi t ht
            rcases List.mem_append.mp hi with hi | hi
            · exact le_of_lt (lt_of_le_of_lt (hmax i hi t ht) hwin)
            · rw [List.mem_singleton.mp hi, hk] at ht
              cases ht
              exact le_refl _
          · intro i hi hik t ht
            rcases List.mem_append.mp hi with hi | hi
            · exact lt_of_le_of_lt (hmax i hi t ht) hwin
            · rw [List.mem_singleton.mp hi] at hik
              exact absurd hik (lt_irrefl k)
        · rw [if_neg hwin]
          push_neg at hwin
          refine Or.inr ⟨j, List.mem_append_left _ hj, hfst, hatt, hpos, ?_, ?_⟩
          · intro i hi t ht
            rcases List.mem_append.mp hi with hi | hi
            · exact hmax i hi t ht
            · rw [List.mem_singleton.mp hi, hk] at ht
              cases ht
              exact hwin
          · intro i hi hik t ht
            rcases List.mem_append.mp hi with hi | hi
            · exact hstrict i hi hik t ht
            · rw [List.mem_singleton.mp hi] at hik
              exact absurd (lt_trans (hlt' j hj) hik) (lt_irrefl j)

/-- C5.  With sufficient disk space, whenever at least one of the 3 burst
attempts captures a frame with strictly positive sharpness,
`capture_best_frame` accepts: it selects the attempt with maximal
sharpness (every other captured score is at most the winner's, and every
earlier-captured score is strictly below it, so ties go to the earliest
attempt) and increments the frame counter by exactly one; and whenever no
attempt scores above zero, the burst fails and the counter is unchanged. -/
theorem capture_best_frame_selects (att : Nat → Option ℚ) (fc : Nat) :
    ((∃ i, i < 3 ∧ ∃ s, att i = some s ∧ 0 < s) →
      ∃ j m, capture_best_frame true att fc = ⟨true, some j, fc + 1⟩ ∧
        j < 3 ∧ att j = some m ∧ 0 < m ∧
        (∀ i, i < 3 → ∀ s, att i = some s → s ≤ m) ∧
        (∀ i, i < j → ∀ s, att i = some s → s < m)) ∧
    ((∀ i, i < 3 → ∀ s, att i = some s → s ≤ 0) →
      capture_best_frame true att fc = ⟨false, none, fc⟩) := by
  have hmem : ∀ i : Nat, i ∈ ([0, 1, 2] : List Nat) ↔ i < 3 := by
    intro i
    simp only [List.mem_cons, List.not_mem_nil, or_false]
    omega
  have hspec := foldl_best_spec att [0, 1, 2] (by decide)
  unfold capture_best_frame
  simp only [Bool.not_true, Bool.false_eq_true, if_false]
  constructor
  · rintro ⟨i, hi3, s, hs, hspos⟩
    rcases hspec with ⟨-, hsmall⟩ | ⟨j, hj, hfst, hatt, -, hmax, hstrict⟩
    · exact absurd (hsmall i ((hmem i).mpr hi3) s hs) (by linarith)
    · simp only [hfst]
      have hjlt : j < 3 := (hmem j).mp hj
      have hms : 0 < ([0, 1, 2].foldl (best_step att) (none, -1)).2 :=
        lt_of_lt_of_le hspos (hmax i ((hmem i).mpr hi3) s hs)
      rw [if_pos hms]
      refine ⟨j, _, rfl, hjlt, hatt, hms, ?_, ?_⟩
      · intro i' hi' t ht
        exact hmax i' ((hmem i').mpr hi') t ht
      · intro i' hi' t ht
        exact hstrict i' ((hmem i').mpr (lt_trans hi' hjlt)) hi' t ht
  · intro hall
    rcases hspec with ⟨heq, -⟩ | ⟨j, hj, hfst, hatt, -, hmax, -⟩
    · rw [heq]
    · simp only [hfst]
      have : ¬ 0 < ([0, 1, 2].foldl (best_step att) (none, -1)).2 :=
        not_lt.mpr (hall j ((hmem j).mp hj) _ hatt)
      rw [if_neg this]

/-- Witness for C5: a burst in which attempt 0 fails, attempt 1 scores 2
and attempt 2 also scores 2 — the selection accepts, picks the
earliest maximal attempt (index 1) and advances the counter from 7 to 8. -/
theorem capture_best_frame_selects_witness :
    ((∃ i, i < 3 ∧ ∃ s,
        (fun i => if i = 0 then (none : Option ℚ)
                  else (some 2 : Option ℚ)) i = some s ∧ 0 < s) ∧
      ∃ j m, capture_best_frame true
          (fun i => if i = 0 then (none : Option ℚ) else (some 2 : Option ℚ)) 7 =
          ⟨true, some j, 7 + 1⟩ ∧
        j < 3 ∧
        (fun i => if i = 0 then (none : Option ℚ)
                  else (some 2 : Option ℚ)) j = some m ∧ 0 < m ∧
        (∀ i, i < 3 → ∀ s,
          (fun i => if i = 0 then (none : Option ℚ)
                    else (some 2 : Option ℚ)) i = some s → s ≤ m) ∧
        (∀ i, i < j → ∀ s,
          (fun i => if i = 0 then (none : Option ℚ)
                    else (some 2 : Option ℚ)) i = some s → s < m)) := by
  have h := (capture_best_frame_selects
    (fun i => if i = 0 then (none : Option ℚ) else (some 2 : Option ℚ)) 7).1
  exact ⟨⟨1, by omega, 2, by norm_num, by norm_num⟩,
    h ⟨1, by omega, 2, by norm_num, by norm_num⟩⟩

/-- Every path through the `try` body of `do_action` ends in a terminal
status: `done` or `failed`, never `pending` or `in_progress`. -/
theorem do_action_body_status (env : ActionEnv) (cmd : Command) :
    (do_action_body env cmd).status = .done ∨
      (do_action_body env cmd).status = .failed := by
  unfold do_action_body
  repeat' split
  all_goals simp_all
  all_goals (split <;> simp_all)

/-- C2.  For every claimed job — whatever the environment does: captures
raising partway through the camera loop, an unknown command, missing or
invalid parameters, failures of the store, of directory creation, of the
metadata dump — the worker's write trace starts with the
`pending → in_progress` claim (status only), contains exactly one terminal
status write, and ends with that terminal write: `done` or `failed`
together with an updated timestamp. -/
theorem worker_terminal_write (env : ActionEnv) (cmd : Command) (aid : Nat) :
    (worker_status_writes env cmd aid).head? =
      some ⟨aid, .in_progress, false⟩ ∧
    ((worker_status_writes env cmd aid).filter
      fun w => w.status.isTerminal).length = 1 ∧
    ∃ st, (worker_status_writes env cmd aid).getLast? = some ⟨aid, st, true⟩ ∧
      (st = ActionStatus.done ∨ st = ActionStatus.failed) := by
  refine ⟨rfl, ?_, (do_action_body env cmd).status, ?_, do_action_body_status env cmd⟩
  · rcases do_action_body_status env cmd with h | h <;>
      simp [worker_status_writes, do_action, h, ActionStatus.isTerminal]
  · rfl

/-- C1 counterexample.  A capture-and-stitch job in which one frame was
captured successfully but the stitch for its channel failed: the metadata
record is written and reports the successful capture, yet the job's final
status write is `failed` — the claim's "final status is `done` regardless
of ... a failed stitch" is false, as is its "marked `failed` only when
zero frames were captured". -/
theorem capture_and_stitch_partial_failure_cex :
    (do_action stitchFailEnv .capture_and_stitching 1).body.captures.length = 1 ∧
    (do_action stitchFailEnv .capture_and_stitching 1).body.metaWritten = true ∧
    (do_action stitchFailEnv .capture_and_stitching 1).writes =
      [⟨1, .failed, true⟩] := by
  refine ⟨rfl, rfl, rfl⟩

/-- C1 (amended).  For a well-formed capture-and-stitch job (camera
selection present, channels valid, cameras found, capture directory
created): the final status is `done` iff at least one frame was captured
and every per-channel stitch succeeded and the metadata dump succeeded;
a failed stitch for some channel makes the job `failed` even with
successful captures, but the metadata record of successful captures is
still written whenever at least one frame was captured and the dump
itself does not raise; and the job is `failed` whenever zero frames were
captured. -/
theorem capture_and_stitch_status (env : ActionEnv) (aid : Nat)
    (hmacs : env.macs_present = true)
    (hch : (env.channels.all fun ch => ch == 1 || ch == 2) = true)
    (cams : List String) (hsel : env.selectCams = .ok cams)
    (hne : cams.isEmpty = false)
    (hmk : env.mkdir = .ok ()) :
    ((do_action env .capture_and_stitching aid).body.status = .done ↔
      (collect_captures env cams).isEmpty = false ∧
      stitch_all_ok env (collect_captures env cams) = true ∧
      env.metaWrite = .ok ()) ∧
    ((collect_captures env cams).isEmpty = false ∧ env.metaWrite = .ok () →
      (do_action env .capture_and_stitching aid).body.metaWritten = true ∧
      (do_action env .capture_and_stitching aid).body.captures =
        collect_captures env cams) ∧
    ((collect_captures env cams).isEmpty = true →
      (do_action env .capture_and_stitching aid).body.status = .failed) := by
  unfold do_action do_action_body
  rw [hmacs, hch, hsel, hmk]
  simp only [Bool.not_true, Bool.false_eq_true, if_false, hne]
  cases hcap : (collect_captures env cams).isEmpty with
  | true =>
    cases hmw : env.metaWrite with
    | ok u => cases u ; simp
    | error e => simp
  | false =>
    cases hmw : env.metaWrite with
    | ok u =>
      cases u
      cases hst : stitch_all_ok env (collect_captures env cams) with
      | true => simp
      | false => simp
    | error e => simp

/-- Witness for C1 (amended) at the fully successful environment: all
hypotheses hold and the conclusion instantiates. -/
theorem capture_and_stitch_status_witness :
    ((do_action allOkEnv .capture_and_stitching 3).body.status = .done ↔
      (collect_captures allOkEnv ["cam1"]).isEmpty = false ∧
      stitch_all_ok allOkEnv (collect_captures allOkEnv ["cam1"]) = true ∧
      allOkEnv.metaWrite = .ok ()) ∧
    ((collect_captures allOkEnv ["cam1"]).isEmpty = false ∧
        allOkEnv.metaWrite = .ok () →
      (do_action allOkEnv .capture_and_stitching 3).body.metaWritten = true ∧
      (do_action allOkEnv .capture_and_stitching 3).body.captures =
        collect_captures allOkEnv ["cam1"]) ∧
    ((collect_captures allOkEnv ["cam1"]).isEmpty = true →
      (do_action allOkEnv .capture_and_stitching 3).body.status = .failed) :=
  capture_and_stitch_status allOkEnv 3 rfl rfl ["cam1"] rfl rfl rfl

/-- C3 counterexample.  A timed-out/raising encode takes the generic
`except` path of `create_video`, which returns `False` without removing
the temp file: the final path is untouched, but the partial temp output
(content 9) is left behind — refuting the claim's "on any failure —
including a raised exception or timeout — ... the temporary output file
is removed". -/
theorem create_video_timeout_cex :
    (create_video timeoutEnv ⟨none, none⟩).1 = false ∧
    (create_video timeoutEnv ⟨none, none⟩).2.tempFile = some 9 ∧
    (create_video timeoutEnv ⟨none, none⟩).2.finalFile = none :=
  ⟨rfl, rfl, rfl⟩

/-- C3 (amended).  `create_video` publishes to the final output path only
when the encode reported success (exit code 0): whenever the final path
content changes the call returned `True` with a successful encode; on any
`False` return the final path is unchanged; on a failure reported by a
nonzero exit code the temp file is also removed (unless an early return
left the filesystem wholly untouched); but on a raised exception or
timeout only the final path is guaranteed unchanged — the temp file may
be left behind. -/
theorem create_video_publishes_only_on_success (env : VideoEnv) (fs : VideoFs) :
    ((create_video env fs).2.finalFile ≠ fs.finalFile →
      (create_video env fs).1 = true ∧ ∃ f, env.encode = .success f ∧
        (create_video env fs).2.finalFile = some f) ∧
    ((create_video env fs).1 = false →
      (create_video env fs).2.finalFile = fs.finalFile) ∧
    (∀ l, env.encode = .failure l →
      (create_video env fs).2 = fs ∨
      ((create_video env fs).2.finalFile = fs.finalFile ∧
        (create_video env fs).2.tempFile = none)) ∧
    (∀ l, env.encode = .raised l →
      (create_video env fs).2.finalFile = fs.finalFile) := by
  unfold create_video
  split_ifs with h1 h2 h3
  · exact ⟨fun h => absurd rfl h, fun _ => rfl, fun l _ => Or.inl rfl, fun l _ => rfl⟩
  · exact ⟨fun h => absurd rfl h, fun _ => rfl, fun l _ => Or.inl rfl, fun l _ => rfl⟩
  · exact ⟨fun h => absurd rfl h, fun _ => rfl, fun l _ => Or.inl rfl, fun l _ => rfl⟩
  · cases henc : env.encode with
    | success f =>
      refine ⟨fun _ => ⟨rfl, f, rfl, rfl⟩, fun h => absurd h (by simp),
        fun l hl => ?_, fun l hl => ?_⟩
      · simp at hl
      · simp at hl
    | failure leftover =>
      refine ⟨fun h => absurd rfl h, fun _ => rfl, fun l _ => Or.inr ⟨rfl, rfl⟩,
        fun l hl => ?_⟩
      simp at hl
    | raised leftover =>
      refine ⟨fun h => absurd rfl h, fun _ => rfl, fun l hl => ?_, fun l _ => rfl⟩
      simp at hl

/-- Witness for C3 (amended) at a concrete nonzero-exit encode failure:
the final path keeps its prior content and the temp file is removed. -/
theorem create_video_publishes_only_on_success_witness :
    (create_video encodeFailEnv ⟨some 7, some 2⟩).2 = ⟨some 7, some 2⟩ ∨
    ((create_video encodeFailEnv ⟨some 7, some 2⟩).2.finalFile = some 7 ∧
      (create_video encodeFailEnv ⟨some 7, some 2⟩).2.tempFile = none) :=
  (create_video_publishes_only_on_success encodeFailEnv ⟨some 7, some 2⟩).2.2.1
    (some 4) rfl

/-- Filtering the non-matching remainder for matching names gives nothing. -/
theorem filter_keep_frame_nil (l : List String) :
    (l.filter (fun nm => !is_frame_name nm)).filter is_frame_name = [] := by
  rw [List.filter_filter]
  rw [List.filter_eq_nil_iff]
  intro a ha
  cases h : is_frame_name a <;> simp [h]

/-- Every contiguous name matches the session frame pattern. -/
theorem filter_contiguous_self (N : Nat) :
    (contiguousNames N).filter is_frame_name = contiguousNames N := by
  rw [List.filter_eq_self]
  intro a ha
  obtain ⟨j, hj, rfl⟩ := mem_contiguousNames.mp ha
  exact is_frame_name_numName _

/-- C6.  For every folder with distinct names holding at least one session
frame (indices may have gaps), a successful renumbering run leaves exactly
the contiguous session frames `frame_000001.jpg .. frame_{N:06d}.jpg`
(one file per index, `N` the number of original session frames), and the
k-th renumbered file holds the content of the k-th original session frame
in name-sorted order. -/
theorem renumber_fills_gaps (fs : Folder) (hnd : (fnames fs).Nodup)
    (hne : get_session_frames fs ≠ []) :
    ∃ fs', renumber_frames_for_video fs = some fs' ∧
      (fnames fs').filter is_frame_name =
        contiguousNames (get_session_frames fs).length ∧
      ∀ k (hk : k < (get_session_frames fs).length),
        content fs' (numName (k + 1)) =
          content fs ((get_session_frames fs).get ⟨k, hk⟩) := by
  obtain ⟨fs', hrn, hf, hk, -, -⟩ := renumber_general fs hnd hne
  refine ⟨fs', hrn, ?_, hk⟩
  rw [hf, List.filter_append, filter_keep_frame_nil, filter_contiguous_self,
    List.nil_append]

/-- Witness for C6: the spec's scenario — session frames 1, 3, 4 with a
gap at 2 become frames 1, 2, 3 holding the original contents of frames
1, 3 and 4 in that order. -/
theorem renumber_fills_gaps_witness :
    (fnames gapFolder).Nodup ∧ get_session_frames gapFolder ≠ [] ∧
    renumber_frames_for_video gapFolder =
      some [(numName 1, 11), (numName 2, 33), (numName 3, 44)] ∧
    (∃ fs', renumber_frames_for_video gapFolder = some fs' ∧
      (fnames fs').filter is_frame_name =
        contiguousNames (get_session_frames gapFolder).length ∧
      ∀ k (hk : k < (get_session_frames gapFolder).length),
        content fs' (numName (k + 1)) =
          content gapFolder ((get_session_frames gapFolder).get ⟨k, hk⟩)) :=
  ⟨by decide, by decide, by decide,
    renumber_fills_gaps gapFolder (by decide) (by decide)⟩

/-- On an already contiguous 1..N session, one renumbering run preserves
every file's content, keeps names duplicate-free and keeps the session
frames exactly contiguous. -/
theorem renumber_on_contiguous (fs : Folder) (N : Nat) (hnd : (fnames fs).Nodup)
    (hN : 0 < N) (hN6 : N < 10 ^ 6)
    (hcontig : List.Perm ((fnames fs).filter is_frame_name) (contiguousNames N)) :
    ∃ fs', renumber_frames_for_video fs = some fs' ∧
      (∀ nm, content fs' nm = content fs nm) ∧
      (fnames fs').Nodup ∧
      (fnames fs').filter is_frame_name = contiguousNames N := by
  have hsf : get_session_frames fs = contiguousNames N :=
    py_sorted_eq_contiguous hcontig hN6
  have hlen : (get_session_frames fs).length = N := by
    rw [hsf, contiguousNames_length]
  have hne : get_session_frames fs ≠ [] := by
    rw [hsf]
    intro h
    have := congrArg List.length h
    rw [contiguousNames_length] at this
    simp at this
    omega
  obtain ⟨fs', hrn, hf, hk, hcF, hcT⟩ := renumber_general fs hnd hne
  rw [hlen] at hf
  refine ⟨fs', hrn, ?_, ?_, ?_⟩
  · intro nm
    cases hpat : is_frame_name nm with
    | false => exact hcF nm hpat
    | true =>
      by_cases hmem : nm ∈ contiguousNames N
      · obtain ⟨k, hkN, rfl⟩ := mem_contiguousNames.mp hmem
        have hk2 : k < (get_session_frames fs).length := by
          rw [hlen] ; exact hkN
        have hgoal := hk k hk2
        rw [hgoal]
        congr 1
        have hget := List.get_of_eq hsf ⟨k, hk2⟩
        rw [hget, contiguousNames_get]
      · have h1 := hcT nm hpat (by rw [hlen] ; exact hmem)
        have h2 : content fs nm = none := by
          unfold content
          rw [List.lookup_eq_none_iff]
          intro p hp
          rw [bne_iff_ne]
          intro heq
          have hmem2 : nm ∈ fnames fs := List.mem_map.mpr ⟨p, hp, heq.symm⟩
          have hmem3 : nm ∈ (fnames fs).filter is_frame_name :=
            List.mem_filter.mpr ⟨hmem2, hpat⟩
          exact hmem (hcontig.mem_iff.mp hmem3)
        rw [h1, h2]
  · rw [hf]
    refine List.Nodup.append (hnd.filter _) (contiguousNames_nodup _) ?_
    intro x hx1 hx2
    have hxf : is_frame_name x = false := by
      have := (List.mem_filter.mp hx1).2
      simpa using this
    obtain ⟨j, hj, rfl⟩ := mem_contiguousNames.mp hx2
    rw [is_frame_name_numName] at hxf
    cases hxf
  · rw [hf, List.filter_append, filter_keep_frame_nil, filter_contiguous_self,
      List.nil_append]

/-- C7.  Renumbering is idempotent: on a folder whose session frames are
already the contiguous sequence `frame_000001.jpg .. frame_{N:06d}.jpg`
(duplicate-free names, `0 < N < 10^6`), running
`renumber_frames_for_video` twice succeeds and the second run changes
nothing: every file holds the same content as after the first run, and
the session frame names are unchanged. -/
theorem renumber_idempotent (fs : Folder) (N : Nat) (hnd : (fnames fs).Nodup)
    (hN : 0 < N) (hN6 : N < 10 ^ 6)
    (hcontig : List.Perm ((fnames fs).filter is_frame_name) (contiguousNames N)) :
    ∃ fs₁ fs₂, renumber_frames_for_video fs = some fs₁ ∧
      renumber_frames_for_video fs₁ = some fs₂ ∧
      (∀ nm, content fs₂ nm = content fs₁ nm) ∧
      (fnames fs₂).filter is_frame_name = (fnames fs₁).filter is_frame_name := by
  obtain ⟨fs₁, hrn1, hc1, hnd1, hfil1⟩ := renumber_on_contiguous fs N hnd hN hN6 hcontig
  obtain ⟨fs₂, hrn2, hc2, hnd2, hfil2⟩ := renumber_on_contiguous fs₁ N hnd1 hN hN6
    (by rw [hfil1])
  exact ⟨fs₁, fs₂, hrn1, hrn2, hc2, by rw [hfil1, hfil2]⟩

/-- Witness for C7 at the concrete contiguous session 1..2. -/
theorem renumber_idempotent_witness :
    (fnames contiguousFolder).Nodup ∧ 0 < 2 ∧ 2 < 10 ^ 6 ∧
    (∃ fs₁ fs₂, renumber_frames_for_video contiguousFolder = some fs₁ ∧
      renumber_frames_for_video fs₁ = some fs₂ ∧
      (∀ nm, content fs₂ nm = content fs₁ nm) ∧
      (fnames fs₂).filter is_frame_name = (fnames fs₁).filter is_frame_name) :=
  ⟨by decide, by decide, by decide,
    renumber_idempotent contiguousFolder 2 (by decide) (by decide) (by decide)
      (List.Perm.of_eq (by decide))⟩

/-- C8.  `cleanup_old_backups` with more than 100 backup files removes
exactly the earliest `count − 100` backup names in sorted name order and
retains exactly the 100 most recent, leaving every other file alone; with
at most 100 backup files the folder is untouched. -/
theorem cleanup_old_backups_spec (fs : Folder) (hnd : (fnames fs).Nodup) :
    (100 < (py_sorted ((fnames fs).filter is_backup_name)).length →
      fnames (cleanup_old_backups fs) =
        (fnames fs).filter (fun nm =>
          !((py_sorted ((fnames fs).filter is_backup_name)).take
            ((py_sorted ((fnames fs).filter is_backup_name)).length - 100)).contains nm) ∧
      List.Perm ((fnames (cleanup_old_backups fs)).filter is_backup_name)
        ((py_sorted ((fnames fs).filter is_backup_name)).drop
          ((py_sorted ((fnames fs).filter is_backup_name)).length - 100))) ∧
    ((py_sorted ((fnames fs).filter is_backup_name)).length ≤ 100 →
      cleanup_old_backups fs = fs) := by
  constructor
  · intro hlen
    have hcleanup : cleanup_old_backups fs =
        fs.filter (fun e =>
          !((py_sorted ((fnames fs).filter is_backup_name)).take
            ((py_sorted ((fnames fs).filter is_backup_name)).length - 100)).contains e.1) := by
      unfold cleanup_old_backups
      rw [if_pos hlen]
    have hbs_nd : (py_sorted ((fnames fs).filter is_backup_name)).Nodup :=
      (py_sorted_perm _).symm.nodup (hnd.filter _)
    have hsplit := List.take_append_drop
      ((py_sorted ((fnames fs).filter is_backup_name)).length - 100)
      (py_sorted ((fnames fs).filter is_backup_name))
    have hdisj : List.Disjoint
        ((py_sorted ((fnames fs).filter is_backup_name)).take
          ((py_sorted ((fnames fs).filter is_backup_name)).length - 100))
        ((py_sorted ((fnames fs).filter is_backup_name)).drop
          ((py_sorted ((fnames fs).filter is_backup_name)).length - 100)) := by
      have := hbs_nd
      rw [← hsplit, List.nodup_append] at this
      exact this.2.2
    constructor
    · rw [hcleanup]
      exact fnames_filter fs (fun nm =>
        !((py_sorted ((fnames fs).filter is_backup_name)).take
          ((py_sorted ((fnames fs).filter is_backup_name)).length - 100)).contains nm)
    · rw [hcleanup, fnames_filter fs (fun nm =>
        !((py_sorted ((fnames fs).filter is_backup_name)).take
          ((py_sorted ((fnames fs).filter is_backup_name)).length - 100)).contains nm)]
      have hswap : ((fnames fs).filter (fun nm =>
            !((py_sorted ((fnames fs).filter is_backup_name)).take
              ((py_sorted ((fnames fs).filter is_backup_name)).length - 100)).contains
              nm)).filter is_backup_name =
          ((fnames fs).filter is_backup_name).filter (fun nm =>
            !((py_sorted ((fnames fs).filter is_backup_name)).take
              ((py_sorted ((fnames fs).filter is_backup_name)).length - 100)).contains
              nm) := by
        rw [List.filter_filter, List.filter_filter]
        apply List.filter_congr
        intro x hx
        exact Bool.and_comm _ _
      rw [hswap]
      refine (((py_sorted_perm ((fnames fs).filter is_backup_name)).symm.filter
        _).trans ?_)
      apply List.Perm.of_eq
      have htake_nil : ((py_sorted ((fnames fs).filter is_backup_name)).take
          ((py_sorted ((fnames fs).filter is_backup_name)).length - 100)).filter
          (fun nm =>
            !((py_sorted ((fnames fs).filter is_backup_name)).take
              ((py_sorted ((fnames fs).filter is_backup_name)).length - 100)).contains
              nm) = [] := by
        rw [List.filter_eq_nil_iff]
        intro x hx
        simpa using hx
      have hdrop_self : ((py_sorted ((fnames fs).filter is_backup_name)).drop
          ((py_sorted ((fnames fs).filter is_backup_name)).length - 100)).filter
          (fun nm =>
            !((py_sorted ((fnames fs).filter is_backup_name)).take
              ((py_sorted ((fnames fs).filter is_backup_name)).length - 100)).contains
              nm) = (py_sorted ((fnames fs).filter is_backup_name)).drop
          ((py_sorted ((fnames fs).filter is_backup_name)).length - 100) := by
        rw [List.filter_eq_self]
        intro x hx
        cases hc : ((py_sorted ((fnames fs).filter is_backup_name)).take
            ((py_sorted ((fnames fs).filter is_backup_name)).length - 100)).contains
            x with
        | false => rfl
        | true =>
          exfalso
          rw [List.contains_iff_exists_mem_beq] at hc
          obtain ⟨b, hb, hxb⟩ := hc
          rw [beq_iff_eq] at hxb
          rw [hxb] at hx
          exact hdisj hb hx
      calc (py_sorted ((fnames fs).filter is_backup_name)).filter (fun nm =>
              !((py_sorted ((fnames fs).filter is_backup_name)).take
                ((py_sorted ((fnames fs).filter is_backup_name)).length - 100)).contains
                nm)
          = (((py_sorted ((fnames fs).filter is_backup_name)).take
              ((py_sorted ((fnames fs).filter is_backup_name)).length - 100) ++
             (py_sorted ((fnames fs).filter is_backup_name)).drop
              ((py_sorted ((fnames fs).filter is_backup_name)).length - 100)).filter
              (fun nm =>
                !((py_sorted ((fnames fs).filter is_backup_name)).take
                  ((py_sorted ((fnames fs).filter is_backup_name)).length -
                    100)).contains nm)) := by rw [hsplit]
        _ = _ := by
            rw [List.filter_append, htake_nil, hdrop_self, List.nil_append]
  · intro hlen
    unfold cleanup_old_backups
    rw [if_neg (not_lt.mpr hlen)]

/-- Witness for C8 at a small concrete folder (two backups, one other
file): at most 100 backups, so pruning leaves the folder untouched. -/
theorem cleanup_old_backups_spec_witness :
    cleanup_old_backups backupFolder = backupFolder :=
  (cleanup_old_backups_spec backupFolder (by decide)).2 (by decide)

end MyCam
